import Mathlib

/-
Verification of the foodgram recipe backend's core logic: the recipe
write-path (validation, create, update in `api/serializers.py`), the
favorite / shopping-cart / subscribe toggle endpoints and the
shopping-list download (`api/views.py`), shallowly embedded over an
explicit relational state.
-/

namespace Foodgram

/-- An ingredient catalog row (`recipes.models.Ingredient`):
identity, name and measurement unit. -/
structure Ingredient where
  id : Nat
  name : String
  measurement_unit : String
deriving DecidableEq, Repr

/-- A tag catalog row (`recipes.models.Tag`). -/
structure Tag where
  id : Nat
  name : String
  color : String
  slug : String
deriving DecidableEq, Repr

/-- A recipe row (`recipes.models.Recipe`): scalar fields only;
associations live in separate join rows. -/
structure Recipe where
  id : Nat
  author : Nat
  name : String
  image : String
  text : String
  cooking_time : Int
deriving DecidableEq, Repr

/-- A join row linking one recipe to one ingredient with an amount
(`recipes.models.IngredientsInRecipe`). -/
structure IngredientsInRecipe where
  recipe : Nat
  ingredient : Nat
  amount : Int
deriving DecidableEq, Repr

/-- The relational state the endpoints read and mutate: catalog tables,
recipe rows, the two association tables for recipes, and the three
user-to-x join tables (favorites, shopping carts, subscriptions),
each join row as an ordered pair of ids. -/
structure State where
  users : List Nat
  tags : List Tag
  ingredients : List Ingredient
  recipes : List Recipe
  ingredientLines : List IngredientsInRecipe
  tagLinks : List (Nat × Nat)
  favorites : List (Nat × Nat)
  shoppingCarts : List (Nat × Nat)
  subscribes : List (Nat × Nat)
deriving DecidableEq, Repr

/-- One entry of the `ingredients` field of a recipe payload:
an ingredient id and an amount. -/
structure IngredientEntry where
  id : Nat
  amount : Int
deriving DecidableEq, Repr

/-- A recipe create/update request payload. -/
structure RecipePayload where
  name : String
  image : String
  text : String
  cooking_time : Int
  tags : List Nat
  ingredients : List IngredientEntry
deriving DecidableEq, Repr

/-- The kinds of structured `serializers.ValidationError` the recipe
write path can raise (each corresponds to one `raise` site in
`RecipeSerializer.validate` or to the `PrimaryKeyRelatedField` lookup
of an ingredient id). -/
inductive ValidationKind where
  | emptyIngredients
  | nonPositiveAmount
  | duplicateIngredient
  | emptyTags
  | unknownTag
  | unknownIngredient
deriving DecidableEq, Repr

/-- How a recipe write request can fail: a structured validation error
(HTTP 400), or the uncaught `Tag.DoesNotExist` exception escaping
`TagSerializer.to_internal_value` (`Tag.objects.get(id=data)`). -/
inductive WriteFailure where
  | validationError : ValidationKind → WriteFailure
  | doesNotExistException
deriving DecidableEq, Repr

/-- `TagSerializer.to_internal_value`, applied to each element of the
`tags` payload list: `Tag.objects.get(id=data)` fetches the tag row or
raises the uncaught `Tag.DoesNotExist`. -/
def tagsToInternal (s : State) : List Nat → Except WriteFailure (List Tag)
  | [] => .ok []
  | tid :: rest =>
    match s.tags.find? (fun t => t.id = tid) with
    | none => .error .doesNotExistException
    | some t =>
      match tagsToInternal s rest with
      | .error e => .error e
      | .ok l => .ok (t :: l)

/-- The `id = PrimaryKeyRelatedField(queryset=Ingredient.objects.all())`
lookup of `IngredientsInRecipeSerializer`, applied to each payload
entry: an unknown ingredient id yields a structured validation error. -/
def ingredientsToInternal (s : State) :
    List IngredientEntry → Except WriteFailure (List IngredientEntry)
  | [] => .ok []
  | e :: rest =>
    if s.ingredients.any (fun i => i.id = e.id) then
      match ingredientsToInternal s rest with
      | .error err => .error err
      | .ok l => .ok (e :: l)
    else .error (.validationError .unknownIngredient)

/-- The ingredient loop of `RecipeSerializer.validate`: raise on the
first non-positive amount, and unconditionally append each entry's id
to `validated_ingredients`, returning that list. -/
def validateIngredientAmounts :
    List IngredientEntry → Except WriteFailure (List Nat)
  | [] => .ok []
  | e :: rest =>
    if e.amount ≤ 0 then .error (.validationError .nonPositiveAmount)
    else
      match validateIngredientAmounts rest with
      | .error err => .error err
      | .ok ids => .ok (e.id :: ids)

/-- The tag checks of `RecipeSerializer.validate`: the list must be
non-empty and each tag's name must occur in the tag table
(`Tag.objects.filter(name=tag).exists()`). -/
def validateTags (s : State) (tags : List Tag) : Except WriteFailure Unit :=
  if tags.isEmpty then .error (.validationError .emptyTags)
  else if tags.all (fun t => s.tags.any (fun t2 => t2.name = t.name)) then .ok ()
  else .error (.validationError .unknownTag)

/-- `RecipeSerializer.validate`: non-empty ingredients, positive
amounts, the (ineffective) length comparison between
`validated_ingredients` and `ingredients`, then the tag checks —
in the source's order. -/
def recipeValidate (s : State) (ings : List IngredientEntry) (tags : List Tag) :
    Except WriteFailure Unit :=
  if ings.isEmpty then .error (.validationError .emptyIngredients)
  else
    match validateIngredientAmounts ings with
    | .error e => .error e
    | .ok validated =>
      if validated.length ≠ ings.length then
        .error (.validationError .duplicateIngredient)
      else validateTags s tags

/-- The id the database assigns to a newly inserted recipe row: one
greater than the largest existing id. -/
def freshRecipeId (s : State) : Nat :=
  (s.recipes.map (fun r => r.id)).foldl max 0 + 1

/-- `RecipeSerializer.ingredints_create` (sic): bulk-insert one
`IngredientsInRecipe` row per payload entry for the given recipe. -/
def ingredintsCreate (ings : List IngredientEntry) (rid : Nat)
    (lines : List IngredientsInRecipe) : List IngredientsInRecipe :=
  lines ++ ings.map (fun e => ⟨rid, e.id, e.amount⟩)

/-- `recipe.tags.set(tags)`: replace the recipe's tag links with
exactly the given tags. -/
def tagsSet (links : List (Nat × Nat)) (rid : Nat) (tags : List Tag) :
    List (Nat × Nat) :=
  links.filter (fun q => q.1 ≠ rid) ++ tags.map (fun t => (rid, t.id))

/-- The full create request path: field deserialization
(`to_internal_value` for tags, then for ingredients, in field order),
`validate`, then `RecipeSerializer.create` (insert the recipe row,
set its tag links, bulk-insert its ingredient lines). Returns the new
state and the new recipe's id. -/
def recipeCreate (s : State) (author : Nat) (p : RecipePayload) :
    Except WriteFailure (State × Nat) :=
  match tagsToInternal s p.tags with
  | .error e => .error e
  | .ok tags =>
    match ingredientsToInternal s p.ingredients with
    | .error e => .error e
    | .ok ings =>
      match recipeValidate s ings tags with
      | .error e => .error e
      | .ok _ =>
        let rid := freshRecipeId s
        .ok ({ s with
          recipes := s.recipes ++
            [⟨rid, author, p.name, p.image, p.text, p.cooking_time⟩],
          tagLinks := tagsSet s.tagLinks rid tags,
          ingredientLines := ingredintsCreate ings rid s.ingredientLines }, rid)

/-- The full update request path: deserialization and `validate` as for
create, then `RecipeSerializer.update` (delete every existing
ingredient line of the recipe, reset its tag links to the new set,
overwrite the scalar fields, bulk-insert the new ingredient lines). -/
def recipeUpdate (s : State) (rid : Nat) (p : RecipePayload) :
    Except WriteFailure State :=
  match tagsToInternal s p.tags with
  | .error e => .error e
  | .ok tags =>
    match ingredientsToInternal s p.ingredients with
    | .error e => .error e
    | .ok ings =>
      match recipeValidate s ings tags with
      | .error e => .error e
      | .ok _ =>
        .ok { s with
          ingredientLines :=
            ingredintsCreate ings rid
              (s.ingredientLines.filter (fun l => l.recipe ≠ rid)),
          tagLinks := tagsSet s.tagLinks rid tags,
          recipes := s.recipes.map (fun r =>
            if r.id = rid then
              { r with name := p.name, image := p.image, text := p.text,
                       cooking_time := p.cooking_time }
            else r) }

/-- The state after a create request: the new state on success, the
old state untouched when deserialization or validation failed (the
view only calls `serializer.save()` after `is_valid` passed). -/
def recipeCreateState (s : State) (author : Nat) (p : RecipePayload) : State :=
  match recipeCreate s author p with
  | .ok out => out.1
  | .error _ => s

/-- The state after an update request, analogous to
`recipeCreateState`. -/
def recipeUpdateState (s : State) (rid : Nat) (p : RecipePayload) : State :=
  match recipeUpdate s rid p with
  | .ok s1 => s1
  | .error _ => s

/-- Reading a recipe back (`IngredientsInRecipeSerializer
.to_representation` over `ingredientsinrecipe_set`): the (ingredient
id, amount) pairs of the recipe's ingredient lines. -/
def readIngredients (s : State) (rid : Nat) : List (Nat × Int) :=
  (s.ingredientLines.filter (fun l => l.recipe = rid)).map
    (fun l => (l.ingredient, l.amount))

/-- Reading a recipe's tags back: the tag ids of its tag links. -/
def readTags (s : State) (rid : Nat) : List Nat :=
  (s.tagLinks.filter (fun q => q.1 = rid)).map (fun q => q.2)

/-- Format one shopping-list line exactly as the view's f-string does:
`'{key} - {value["amount"]} {value["measurement_unit"]}\n'`. -/
def fmtLine (e : String × Int × String) : String :=
  e.1 ++ " - " ++ toString e.2.1 ++ " " ++ e.2.2 ++ "\n"

/-- One iteration of the view's dict update: if the ingredient name is
not yet a key of `shopping_dict`, insert it with its amount and unit;
otherwise add the amount to the existing entry (the dict is modelled
as an association list in Python's insertion order). -/
def addToDict (d : List (String × Int × String)) (t : String × Int × String) :
    List (String × Int × String) :=
  if t.1 ∈ d.map (fun e => e.1) then
    d.map (fun e => if e.1 = t.1 then (e.1, e.2.1 + t.2.1, e.2.2) else e)
  else d ++ [t]

/-- One iteration of the view's `for ingredient in ingredients` loop:
update `shopping_dict`, then (still inside the loop, as in the source)
rebuild `shopping_list` in full from the dict. -/
def shoppingStep (acc : List (String × Int × String) × Option (List String))
    (t : String × Int × String) :
    List (String × Int × String) × Option (List String) :=
  let d := addToDict acc.1 t
  (d, some (d.map fmtLine))

/-- The whole loop of `download_shopping_cart`, starting from the empty
dict and an unassigned `shopping_list` (`none`). -/
def shoppingLoop (ts : List (String × Int × String)) :
    List (String × Int × String) × Option (List String) :=
  ts.foldl shoppingStep ([], none)

/-- The value of `shopping_list` after the loop: `some lines` when at
least one iteration ran, `none` when the loop body never ran and the
name is still unassigned (the `UnboundLocalError` case). -/
def downloadLines (ts : List (String × Int × String)) : Option (List String) :=
  (shoppingLoop ts).2

/-- The queryset feeding the loop:
`IngredientsInRecipe.objects.filter(recipe__shopping_cart__user=user)
.values_list('ingredient__name', 'amount', 'ingredient__measurement_unit')`
— the (name, amount, unit) triple of every ingredient line whose recipe
is in the user's cart. -/
def cartTriples (s : State) (userId : Nat) : List (String × Int × String) :=
  (s.ingredientLines.filter
    (fun l => (userId, l.recipe) ∈ s.shoppingCarts)).filterMap
    (fun l => (s.ingredients.find? (fun i => i.id = l.ingredient)).map
      (fun i => (i.name, l.amount, i.measurement_unit)))

/-- The HTTP response `download_shopping_cart` builds: the literal
`content_type` string, the `Content-Disposition` header (the
`filename` variable already ends in `.txt` and the f-string appends
`.txt` again), and the body lines (`none` models the
`UnboundLocalError` crash on an empty queryset). -/
structure DownloadResponse where
  contentType : String
  contentDisposition : String
  body : Option (List String)
deriving DecidableEq, Repr

/-- `RecipeViewSet.download_shopping_cart` for the given user. -/
def downloadShoppingCart (s : State) (userId : Nat) (username : String) :
    DownloadResponse :=
  let filename := username ++ "_shopping_list.txt"
  { contentType := "text.txt; charset=utf-8",
    contentDisposition := "attachment; filename=" ++ filename ++ ".txt",
    body := downloadLines (cartTriples s userId) }

/-- Modelled from the spec: the distinct ingredient names of the
triples, in insertion order of first occurrence (`ks` accumulates the
names already seen). -/
def newNames (ks : List String) :
    List (String × Int × String) → List String
  | [] => []
  | t :: ts =>
    if t.1 ∈ ks then newNames ks ts else t.1 :: newNames (ks ++ [t.1]) ts

/-- Modelled from the spec: distinct ingredient names in first
occurrence order. -/
def groupedNames (ts : List (String × Int × String)) : List String :=
  newNames [] ts

/-- Modelled from the spec: the sum of the amounts of every triple
carrying the given name. -/
def specTotal (ts : List (String × Int × String)) (n : String) : Int :=
  ((ts.filter (fun t => t.1 = n)).map (fun t => t.2.1)).sum

/-- Modelled from the spec: the unit of (the first) one of the triples
carrying the given name. -/
def specFirstUnit (ts : List (String × Int × String)) (n : String) : String :=
  match ts.find? (fun t => t.1 = n) with
  | some t => t.2.2
  | none => ""

/-- Modelled from the spec: the aggregated (name, total, unit) rows,
one per distinct name, in first-occurrence order. -/
def specAgg (ts : List (String × Int × String)) :
    List (String × Int × String) :=
  (groupedNames ts).map (fun n => (n, specTotal ts n, specFirstUnit ts n))

/-- Modelled from the spec: the expected shopping-list lines, one
`"{name} - {total} {unit}"` line per distinct ingredient name. -/
def specLines (ts : List (String × Int × String)) : List String :=
  (specAgg ts).map fmtLine

/-- HTTP method of a toggle request. -/
inductive Method where
  | post
  | delete
deriving DecidableEq, Repr

/-- The error classes of the toggle endpoints (spec taxonomy names). -/
inductive ToggleError where
  | invalidSelfReference
  | alreadyExists
  | notFound
deriving DecidableEq, Repr

/-- A toggle endpoint's response: 201 Created, 204 No Content, a 400
with a structured error, or the 404 of `get_object_or_404`. -/
inductive ToggleResult where
  | ok201
  | ok204
  | err400 : ToggleError → ToggleResult
  | err404
deriving DecidableEq, Repr

/-- `UserViewSet.subscribe`: resolve the author id
(`get_object_or_404`), reject self-subscription for both methods, then
create the link if absent (POST) or delete it if present (DELETE). -/
def subscribe (s : State) (userId authorId : Nat) (m : Method) :
    ToggleResult × State :=
  if authorId ∈ s.users then
    match m with
    | .post =>
      if userId = authorId then (.err400 .invalidSelfReference, s)
      else if (userId, authorId) ∈ s.subscribes then
        (.err400 .alreadyExists, s)
      else (.ok201, { s with subscribes := s.subscribes ++ [(userId, authorId)] })
    | .delete =>
      if userId = authorId then (.err400 .invalidSelfReference, s)
      else if (userId, authorId) ∈ s.subscribes then
        (.ok204, { s with subscribes :=
          s.subscribes.filter (fun q => q ≠ (userId, authorId)) })
      else (.err400 .notFound, s)
  else (.err404, s)

/-- `RecipeViewSet.favorite`: resolve the recipe (`get_object_or_404`),
then create the favorite link if absent (POST, else 400 already-exists)
or delete it if present (DELETE, else 400 not-found). -/
def favorite (s : State) (userId recipeId : Nat) (m : Method) :
    ToggleResult × State :=
  if s.recipes.any (fun r => r.id = recipeId) then
    match m with
    | .post =>
      if (userId, recipeId) ∈ s.favorites then (.err400 .alreadyExists, s)
      else (.ok201, { s with favorites := s.favorites ++ [(userId, recipeId)] })
    | .delete =>
      if (userId, recipeId) ∈ s.favorites then
        (.ok204, { s with favorites :=
          s.favorites.filter (fun q => q ≠ (userId, recipeId)) })
      else (.err400 .notFound, s)
  else (.err404, s)

/-- A small concrete database used to exercise the definitions: two
users, one tag, two ingredients, two recipes (both authored by user 1,
each with one Salt line), user 1's cart holding both recipes, and one
favorite. -/
def demoState : State where
  users := [1, 2]
  tags := [⟨1, "breakfast", "#E26C2D", "breakfast"⟩]
  ingredients := [⟨1, "Salt", "g"⟩, ⟨2, "Sugar", "g"⟩]
  recipes := [⟨1, 1, "Soup", "img1", "body1", 10⟩, ⟨2, 1, "Tea", "img2", "body2", 5⟩]
  ingredientLines := [⟨1, 1, 5⟩, ⟨2, 1, 3⟩]
  tagLinks := [(1, 1), (2, 1)]
  favorites := [(1, 1)]
  shoppingCarts := [(1, 1), (1, 2)]
  subscribes := []

/-- The demo tag row. -/
def demoTag : Tag := ⟨1, "breakfast", "#E26C2D", "breakfast"⟩

/-- A payload naming the same ingredient twice with different amounts. -/
def pDup : RecipePayload :=
  ⟨"Dup", "img", "body", 10, [1], [⟨1, 2⟩, ⟨1, 3⟩]⟩

/-- A valid payload: one ingredient, one tag. -/
def pGood : RecipePayload :=
  ⟨"Cake", "img", "body", 10, [1], [⟨1, 2⟩]⟩

/-- A second valid payload, used to overwrite recipe 1. -/
def pGood2 : RecipePayload :=
  ⟨"Stew", "img9", "body9", 20, [1], [⟨2, 4⟩]⟩

/-- A payload referencing a tag id absent from the catalog. -/
def pUnknownTag : RecipePayload :=
  ⟨"Ghost", "img", "body", 10, [999], [⟨1, 2⟩]⟩

/-- A payload with an empty ingredient list. -/
def pEmptyIngs : RecipePayload :=
  ⟨"Empty", "img", "body", 10, [1], []⟩

/-- C1: the claim says a payload naming the same ingredient twice must
always fail validation with DuplicateIngredient. The code appends every
id to `validated_ingredients` unconditionally, so the length comparison
guarding the duplicate error can never fire: validation accepts the
duplicate payload and create persists two lines for the same
ingredient. -/
theorem duplicate_ingredients_accepted :
    recipeValidate demoState [⟨1, 2⟩, ⟨1, 3⟩] [demoTag] = .ok () ∧
    readIngredients (recipeCreateState demoState 1 pDup) (freshRecipeId demoState) =
      [(1, 2), (1, 3)] :=
  ⟨rfl, rfl⟩

/-- The ingredient loop of `validate` only ever raises the
non-positive-amount error. -/
theorem validateIngredientAmounts_error :
    ∀ (l : List IngredientEntry) (e : WriteFailure),
      validateIngredientAmounts l = .error e →
      e = .validationError .nonPositiveAmount := by
  intro l
  induction l with
  | nil => intro e h; simp [validateIngredientAmounts] at h
  | cons x xs ih =>
    intro e h
    simp only [validateIngredientAmounts] at h
    split at h
    · injection h with h2
      exact h2.symm
    · cases hr : validateIngredientAmounts xs with
      | error e2 =>
        rw [hr] at h
        injection h with h2
        exact h2 ▸ ih e2 hr
      | ok ids =>
        rw [hr] at h
        exact Except.noConfusion h

/-- `validated_ingredients` always has exactly one element per payload
entry, which is why the duplicate-ingredient length check can never
fire. -/
theorem validateIngredientAmounts_length :
    ∀ (l : List IngredientEntry) (ids : List Nat),
      validateIngredientAmounts l = .ok ids → ids.length = l.length := by
  intro l
  induction l with
  | nil =>
    intro ids h
    simp only [validateIngredientAmounts] at h
    injection h with h2
    simp [← h2]
  | cons x xs ih =>
    intro ids h
    simp only [validateIngredientAmounts] at h
    split at h
    · exact Except.noConfusion h
    · cases hr : validateIngredientAmounts xs with
      | error e2 =>
        rw [hr] at h
        exact Except.noConfusion h
      | ok tl =>
        rw [hr] at h
        injection h with h2
        simp [← h2, ih tl hr]

/-- The tag checks of `validate` only raise the empty-tags or
unknown-tag errors. -/
theorem validateTags_error (s : State) (tags : List Tag) (e : WriteFailure)
    (h : validateTags s tags = .error e) :
    e = .validationError .emptyTags ∨ e = .validationError .unknownTag := by
  unfold validateTags at h
  split at h
  · exact Or.inl (by injection h with h2; exact h2.symm)
  · split at h
    · exact Except.noConfusion h
    · exact Or.inr (by injection h with h2; exact h2.symm)

/-- The duplicate branch of `RecipeSerializer.validate` is dead code:
no input whatsoever can produce the DuplicateIngredient error. -/
theorem validate_never_duplicate (s : State) (ings : List IngredientEntry)
    (tags : List Tag) (h : recipeValidate s ings tags =
      .error (.validationError .duplicateIngredient)) : False := by
  unfold recipeValidate at h
  split at h
  · simp at h
  · split at h
    next e2 heq =>
      injection h with h2
      have he := validateIngredientAmounts_error ings e2 heq
      rw [he] at h2
      simp at h2
    next ids heq =>
      split at h
      next hlen => exact hlen (validateIngredientAmounts_length ings ids heq)
      next => rcases validateTags_error s tags _ h with h2 | h2 <;> simp at h2

/-- C5: the claim says an empty cart downloads successfully as zero
lines. In the code `shopping_list` is only ever assigned inside the
`for` loop, so with an empty queryset the final
`HttpResponse(shopping_list, ...)` reads an unassigned local
(`UnboundLocalError`), modelled as `none`: the request crashes instead
of producing zero lines. -/
theorem empty_cart_unbound_local :
    cartTriples demoState 2 = [] ∧
    (downloadShoppingCart demoState 2 "bob").body = none :=
  ⟨rfl, rfl⟩

/-- C6: the claim says an unknown tag id fails with a structured
UnknownTag validation error. The code's `TagSerializer
.to_internal_value` runs `Tag.objects.get(id=data)` first, which
raises an uncaught `Tag.DoesNotExist` for an unknown id, so the
unknown-tag branch of `validate` is never reached: both create and
update surface the exception, not a validation error. -/
theorem unknown_tag_uncaught_exception :
    recipeCreate demoState 1 pUnknownTag = .error .doesNotExistException ∧
    recipeUpdate demoState 1 pUnknownTag = .error .doesNotExistException :=
  ⟨rfl, rfl⟩

/-- C7: any deserialization or validation failure aborts the write
before any mutation: the view only calls `serializer.save()` (which
performs the inserts/deletes) after `is_valid` succeeded, so on any
error the state is exactly the prior state, for create and for
update. -/
theorem failed_validation_aborts (s : State) (a rid : Nat) (p : RecipePayload)
    (e e' : WriteFailure) :
    (recipeCreate s a p = .error e → recipeCreateState s a p = s) ∧
    (recipeUpdate s rid p = .error e' → recipeUpdateState s rid p = s) := by
  constructor <;> intro h <;> simp [recipeCreateState, recipeUpdateState, h]

/-- Witness for `failed_validation_aborts`: an empty ingredient list is
rejected and both request paths leave the demo state untouched. -/
theorem failed_validation_aborts_witness :
    recipeCreateState demoState 1 pEmptyIngs = demoState ∧
    recipeUpdateState demoState 1 pEmptyIngs = demoState :=
  ⟨(failed_validation_aborts demoState 1 1 pEmptyIngs
      (.validationError .emptyIngredients) (.validationError .emptyIngredients)).1 rfl,
   (failed_validation_aborts demoState 1 1 pEmptyIngs
      (.validationError .emptyIngredients) (.validationError .emptyIngredients)).2 rfl⟩

/-- C8: a subscribe request whose target is the requesting user itself
fails with InvalidSelfReference for both POST and DELETE and leaves
the whole state (in particular the subscription table) unchanged. -/
theorem subscribe_self_invalidSelfReference (s : State) (u : Nat) (m : Method)
    (h : u ∈ s.users) :
    subscribe s u u m = (.err400 .invalidSelfReference, s) := by
  unfold subscribe
  cases m <;> simp [h]

/-- Witness for `subscribe_self_invalidSelfReference` at user 1 of the
demo state, for both methods. -/
theorem subscribe_self_witness :
    subscribe demoState 1 1 .post = (.err400 .invalidSelfReference, demoState) ∧
    subscribe demoState 1 1 .delete = (.err400 .invalidSelfReference, demoState) :=
  ⟨subscribe_self_invalidSelfReference demoState 1 .post (by decide),
   subscribe_self_invalidSelfReference demoState 1 .delete (by decide)⟩

/-- C9: favoriting an already-favorited recipe fails with
AlreadyExists and changes nothing; un-favoriting a recipe that is not
favorited fails with NotFound and changes nothing. -/
theorem favorite_duplicate_and_missing (s : State) (u r : Nat)
    (hr : s.recipes.any (fun rec => rec.id = r) = true) :
    ((u, r) ∈ s.favorites →
      favorite s u r .post = (.err400 .alreadyExists, s)) ∧
    ((u, r) ∉ s.favorites →
      favorite s u r .delete = (.err400 .notFound, s)) := by
  unfold favorite
  constructor <;> intro h <;> simp [hr, h]

/-- Witness for `favorite_duplicate_and_missing`: user 1 already has
recipe 1 favorited; user 2 does not. -/
theorem favorite_witness :
    favorite demoState 1 1 .post = (.err400 .alreadyExists, demoState) ∧
    favorite demoState 2 1 .delete = (.err400 .notFound, demoState) :=
  ⟨(favorite_duplicate_and_missing demoState 1 1 (by decide)).1 (by decide),
   (favorite_duplicate_and_missing demoState 2 1 (by decide)).2 (by decide)⟩

/-- C10: the claim says the download is a text/plain attachment named
exactly `{username}_shopping_list.txt`. The code builds `filename`
already ending in `.txt` and then appends `.txt` again in the
Content-Disposition f-string, and sets the malformed content type
`text.txt`, so the served filename is
`{username}_shopping_list.txt.txt` and the type is not text/plain. -/
theorem download_filename_double_suffix :
    (downloadShoppingCart demoState 1 "alice").contentDisposition =
      "attachment; filename=alice_shopping_list.txt.txt" ∧
    (downloadShoppingCart demoState 1 "alice").contentType =
      "text.txt; charset=utf-8" :=
  ⟨rfl, rfl⟩

/-- Successful ingredient deserialization returns the payload entries
unchanged. -/
theorem ingredientsToInternal_ok (s : State) :
    ∀ (l l' : List IngredientEntry),
      ingredientsToInternal s l = .ok l' → l' = l := by
  intro l
  induction l with
  | nil =>
    intro l' h
    simp only [ingredientsToInternal] at h
    injection h with h2
    exact h2.symm
  | cons e rest ih =>
    intro l' h
    simp only [ingredientsToInternal] at h
    split at h
    · cases hr : ingredientsToInternal s rest with
      | error err =>
        rw [hr] at h
        exact Except.noConfusion h
      | ok tl =>
        rw [hr] at h
        injection h with h2
        rw [← h2, ih tl hr]
    · exact Except.noConfusion h

/-- Successful tag deserialization returns tag rows whose ids are
exactly the submitted tag ids, in order. -/
theorem tagsToInternal_ids (s : State) :
    ∀ (l : List Nat) (ts : List Tag),
      tagsToInternal s l = .ok ts → ts.map (fun t => t.id) = l := by
  intro l
  induction l with
  | nil =>
    intro ts h
    simp only [tagsToInternal] at h
    injection h with h2
    simp [← h2]
  | cons tid rest ih =>
    intro ts h
    simp only [tagsToInternal] at h
    cases hf : s.tags.find? (fun t => t.id = tid) with
    | none =>
      rw [hf] at h
      exact Except.noConfusion h
    | some t =>
      rw [hf] at h
      cases hr : tagsToInternal s rest with
      | error e =>
        rw [hr] at h
        exact Except.noConfusion h
      | ok tl =>
        rw [hr] at h
        injection h with h2
        have hid := List.find?_some hf
        simp at hid
        simp [← h2, hid, ih tl hr]

/-- A filter whose predicate fails on every element yields the empty
list. -/
theorem filter_no_match {α : Type} (p : α → Bool) :
    ∀ (l : List α), (∀ a ∈ l, p a = false) → l.filter p = [] := by
  intro l
  induction l with
  | nil => intro _; rfl
  | cons x xs ih =>
    intro h
    rw [List.filter_cons, h x (by simp)]
    exact ih (fun a ha => h a (by simp [ha]))

/-- A filter whose predicate holds on every element is the identity. -/
theorem filter_all_match {α : Type} (p : α → Bool) :
    ∀ (l : List α), (∀ a ∈ l, p a = true) → l.filter p = l := by
  intro l
  induction l with
  | nil => intro _; rfl
  | cons x xs ih =>
    intro h
    rw [List.filter_cons, h x (by simp)]
    show x :: xs.filter p = x :: xs
    rw [ih (fun a ha => h a (by simp [ha]))]

/-- The seed of a left fold by `max` bounds the fold from below. -/
theorem le_foldl_max : ∀ (l : List Nat) (b : Nat), b ≤ l.foldl max b := by
  intro l
  induction l with
  | nil => intro b; exact Nat.le_refl b
  | cons x xs ih =>
    intro b
    exact Nat.le_trans (Nat.le_max_left b x) (ih (max b x))

/-- Every member of a list is bounded by its left fold by `max`. -/
theorem mem_le_foldl_max :
    ∀ (l : List Nat) (b a : Nat), a ∈ l → a ≤ l.foldl max b := by
  intro l
  induction l with
  | nil =>
    intro b a ha
    cases ha
  | cons x xs ih =>
    intro b a ha
    rw [List.foldl_cons]
    cases ha with
    | head => exact Nat.le_trans (Nat.le_max_right b x) (le_foldl_max xs (max b x))
    | tail _ h => exact ih (max b x) a h

/-- The id of every existing recipe is strictly below the id assigned
to a newly created recipe. -/
theorem recipe_id_lt_fresh (s : State) :
    ∀ r ∈ s.recipes, r.id < freshRecipeId s := by
  intro r hr
  have h := mem_le_foldl_max (s.recipes.map (fun r => r.id)) 0 r.id
    (List.mem_map_of_mem _ hr)
  exact Nat.lt_succ_of_le h

/-- C2: for every payload the write path accepts, creating the recipe
and reading it back yields exactly the submitted (ingredient id,
amount) pairs and exactly the submitted tag ids, provided every
pre-existing ingredient line belongs to an existing recipe (so no
stale line can collide with the fresh recipe id). -/
theorem create_roundtrip (s : State) (a : Nat) (p : RecipePayload)
    (out : State × Nat)
    (hlines : ∀ l ∈ s.ingredientLines, ∃ r ∈ s.recipes, r.id = l.recipe)
    (h : recipeCreate s a p = .ok out) :
    readIngredients out.1 out.2 =
      p.ingredients.map (fun e => (e.id, e.amount)) ∧
    readTags out.1 out.2 = p.tags := by
  unfold recipeCreate at h
  split at h
  next => exact Except.noConfusion h
  next tags htags =>
    split at h
    next => exact Except.noConfusion h
    next ings hings =>
      split at h
      next => exact Except.noConfusion h
      next u hval =>
        injection h with h2
        subst h2
        have hi : ings = p.ingredients := ingredientsToInternal_ok s _ _ hings
        have hids : tags.map (fun t => t.id) = p.tags := tagsToInternal_ids s _ _ htags
        constructor
        · show readIngredients _ (freshRecipeId s) = _
          unfold readIngredients ingredintsCreate
          rw [List.filter_append]
          rw [filter_no_match _ s.ingredientLines (fun l hl => by
            obtain ⟨r, hrmem, hrid⟩ := hlines l hl
            have := recipe_id_lt_fresh s r hrmem
            simp [← hrid]
            omega)]
          rw [filter_all_match _ (ings.map fun e =>
            (⟨freshRecipeId s, e.id, e.amount⟩ : IngredientsInRecipe)) (fun l hl => by
            obtain ⟨e, _, he⟩ := List.mem_map.mp hl
            simp [← he])]
          rw [List.nil_append, List.map_map, hi]
          rfl
        · show readTags _ (freshRecipeId s) = _
          unfold readTags tagsSet
          rw [List.filter_append]
          rw [filter_no_match _ (s.tagLinks.filter fun q => q.1 ≠ freshRecipeId s)
            (fun q hq => by
              have := (List.mem_filter.mp hq).2
              simp at this
              simp [this])]
          rw [filter_all_match _ (tags.map fun t => (freshRecipeId s, t.id))
            (fun q hq => by
              obtain ⟨t, _, ht⟩ := List.mem_map.mp hq
              simp [← ht])]
          rw [List.nil_append, List.map_map, ← hids]
          rfl

/-- Witness for `create_roundtrip`: creating `pGood` over the demo
state (whose lines all belong to existing recipes) reads back as
exactly its one ingredient pair and its one tag. -/
theorem create_roundtrip_witness :
    readIngredients (recipeCreateState demoState 1 pGood) 3 = [(1, 2)] ∧
    readTags (recipeCreateState demoState 1 pGood) 3 = [1] := by
  have h := create_roundtrip demoState 1 pGood
    (recipeCreateState demoState 1 pGood, 3) (by decide) rfl
  exact ⟨h.1.trans rfl, h.2.trans rfl⟩

/-- C3: for every existing recipe and accepted update payload, after
the update the recipe's ingredient lines are exactly the new payload's
lines and its tag links are exactly the new payload's tags: the prior
associations are fully replaced. -/
theorem update_full_replacement (s : State) (rid : Nat) (p : RecipePayload)
    (s' : State) (h : recipeUpdate s rid p = .ok s') :
    s'.ingredientLines.filter (fun l => l.recipe = rid) =
      p.ingredients.map (fun e => (⟨rid, e.id, e.amount⟩ : IngredientsInRecipe)) ∧
    s'.tagLinks.filter (fun q => q.1 = rid) =
      p.tags.map (fun tid => (rid, tid)) := by
  unfold recipeUpdate at h
  split at h
  next => exact Except.noConfusion h
  next tags htags =>
    split at h
    next => exact Except.noConfusion h
    next ings hings =>
      split at h
      next => exact Except.noConfusion h
      next u hval =>
        injection h with h2
        subst h2
        have hi : ings = p.ingredients := ingredientsToInternal_ok s _ _ hings
        have hids : tags.map (fun t => t.id) = p.tags := tagsToInternal_ids s _ _ htags
        constructor
        · show (ingredintsCreate ings rid
            (s.ingredientLines.filter fun l => l.recipe ≠ rid)).filter
              (fun l => l.recipe = rid) = _
          unfold ingredintsCreate
          rw [List.filter_append]
          rw [filter_no_match _ (s.ingredientLines.filter fun l => l.recipe ≠ rid)
            (fun l hl => by
              have := (List.mem_filter.mp hl).2
              simp at this
              simp [this])]
          rw [filter_all_match _ (ings.map fun e =>
            (⟨rid, e.id, e.amount⟩ : IngredientsInRecipe)) (fun l hl => by
            obtain ⟨e, _, he⟩ := List.mem_map.mp hl
            simp [← he])]
          rw [List.nil_append, hi]
        · show (tagsSet s.tagLinks rid tags).filter (fun q => q.1 = rid) = _
          unfold tagsSet
          rw [List.filter_append]
          rw [filter_no_match _ (s.tagLinks.filter fun q => q.1 ≠ rid)
            (fun q hq => by
              have := (List.mem_filter.mp hq).2
              simp at this
              simp [this])]
          rw [filter_all_match _ (tags.map fun t => (rid, t.id))
            (fun q hq => by
              obtain ⟨t, _, ht⟩ := List.mem_map.mp hq
              simp [← ht])]
          rw [List.nil_append, ← hids, List.map_map]
          rfl

/-- Witness for `update_full_replacement`: overwriting recipe 1 of the
demo state with `pGood2` leaves it with exactly the new single line
and the new single tag link. -/
theorem update_full_replacement_witness :
    (recipeUpdateState demoState 1 pGood2).ingredientLines.filter
      (fun l => l.recipe = 1) = [⟨1, 2, 4⟩] ∧
    (recipeUpdateState demoState 1 pGood2).tagLinks.filter
      (fun q => q.1 = 1) = [(1, 1)] := by
  have h := update_full_replacement demoState 1 pGood2
    (recipeUpdateState demoState 1 pGood2) rfl
  exact ⟨h.1.trans rfl, h.2.trans rfl⟩

/-- Appending one triple to the input either leaves the
first-occurrence name list unchanged (name already seen) or appends
the new name at the end. -/
theorem newNames_append (t : String × Int × String) :
    ∀ (ts : List (String × Int × String)) (ks : List String),
      newNames ks (ts ++ [t]) =
        if t.1 ∈ ks ∨ t.1 ∈ ts.map (fun x => x.1) then newNames ks ts
        else newNames ks ts ++ [t.1] := by
  intro ts
  induction ts with
  | nil =>
    intro ks
    by_cases h : t.1 ∈ ks <;> simp [newNames, h]
  | cons u us ih =>
    intro ks
    by_cases hu : u.1 ∈ ks
    · rw [List.cons_append]
      rw [show newNames ks (u :: (us ++ [t])) = newNames ks (us ++ [t]) from by
        simp [newNames, hu]]
      rw [ih ks]
      rw [show newNames ks (u :: us) = newNames ks us from by
        simp [newNames, hu]]
      simp only [List.map_cons, List.mem_cons]
      have hiff : (t.1 ∈ ks ∨ t.1 ∈ us.map (fun x => x.1)) ↔
          (t.1 ∈ ks ∨ (t.1 = u.1 ∨ t.1 ∈ us.map (fun x => x.1))) := by
        constructor
        · rintro (h | h)
          · exact Or.inl h
          · exact Or.inr (Or.inr h)
        · rintro (h | h | h)
          · exact Or.inl h
          · exact Or.inl (h ▸ hu)
          · exact Or.inr h
      rw [if_congr hiff rfl rfl]
    · rw [List.cons_append]
      rw [show newNames ks (u :: (us ++ [t])) =
          u.1 :: newNames (ks ++ [u.1]) (us ++ [t]) from by
        simp [newNames, hu]]
      rw [ih (ks ++ [u.1])]
      rw [show newNames ks (u :: us) =
          u.1 :: newNames (ks ++ [u.1]) us from by
        simp [newNames, hu]]
      simp only [List.mem_append, List.mem_singleton, List.map_cons,
        List.mem_cons]
      have hiff : ((t.1 ∈ ks ∨ t.1 = u.1 ∨ t.1 ∈ ([] : List String)) ∨
          t.1 ∈ us.map (fun x => x.1)) ↔
          (t.1 ∈ ks ∨ t.1 = u.1 ∨ t.1 ∈ us.map (fun x => x.1)) := by
        simp [or_assoc]
      rw [if_congr hiff rfl rfl]
      split_ifs with hc
      · rfl
      · rfl

/-- A name occurs in `newNames ks ts` exactly when it is a name of
`ts` not already in the seen-set `ks`. -/
theorem mem_newNames (n : String) :
    ∀ (ts : List (String × Int × String)) (ks : List String),
      n ∈ newNames ks ts ↔ (n ∉ ks ∧ n ∈ ts.map (fun x => x.1)) := by
  intro ts
  induction ts with
  | nil => intro ks; simp [newNames]
  | cons u us ih =>
    intro ks
    by_cases hu : u.1 ∈ ks
    · rw [show newNames ks (u :: us) = newNames ks us from by
        simp [newNames, hu]]
      rw [ih ks]
      simp only [List.map_cons, List.mem_cons]
      constructor
      · rintro ⟨h1, h2⟩
        exact ⟨h1, Or.inr h2⟩
      · rintro ⟨h1, h2 | h2⟩
        · exact absurd (h2 ▸ hu) h1
        · exact ⟨h1, h2⟩
    · rw [show newNames ks (u :: us) =
          u.1 :: newNames (ks ++ [u.1]) us from by
        simp [newNames, hu]]
      simp only [List.mem_cons, ih (ks ++ [u.1]), List.mem_append,
        List.mem_singleton, List.map_cons, List.not_mem_nil, or_false]
      constructor
      · rintro (h | ⟨h1, h2⟩)
        · exact ⟨h ▸ hu, Or.inl h⟩
        · exact ⟨fun hk => h1 (Or.inl hk), Or.inr h2⟩
      · rintro ⟨h1, h2 | h2⟩
        · exact Or.inl h2
        · by_cases heq : n = u.1
          · exact Or.inl heq
          · exact Or.inr ⟨fun hk => hk.elim h1 heq, h2⟩

/-- `groupedNames` under a single append. -/
theorem groupedNames_append (ts : List (String × Int × String))
    (t : String × Int × String) :
    groupedNames (ts ++ [t]) =
      if t.1 ∈ ts.map (fun x => x.1) then groupedNames ts
      else groupedNames ts ++ [t.1] := by
  unfold groupedNames
  rw [newNames_append t ts []]
  rw [if_congr (by simp : (t.1 ∈ ([] : List String) ∨
      t.1 ∈ ts.map (fun x => x.1)) ↔ t.1 ∈ ts.map (fun x => x.1)) rfl rfl]

/-- The first-occurrence name list has exactly the names of the
input. -/
theorem mem_groupedNames (n : String) (ts : List (String × Int × String)) :
    n ∈ groupedNames ts ↔ n ∈ ts.map (fun x => x.1) := by
  unfold groupedNames
  rw [mem_newNames n ts []]
  simp

/-- The summed amount after appending one triple. -/
theorem specTotal_append (pre : List (String × Int × String))
    (t : String × Int × String) (n : String) :
    specTotal (pre ++ [t]) n =
      specTotal pre n + (if t.1 = n then t.2.1 else 0) := by
  unfold specTotal
  rw [List.filter_append, List.map_append, List.sum_append]
  congr 1
  by_cases h : t.1 = n <;> simp [List.filter_cons, h]

/-- A name with no occurrence sums to zero. -/
theorem specTotal_not_mem (pre : List (String × Int × String)) (n : String)
    (h : n ∉ pre.map (fun x => x.1)) : specTotal pre n = 0 := by
  unfold specTotal
  rw [filter_no_match _ pre (fun a ha => by
    simp only [decide_eq_false_iff_not]
    intro he
    exact h (he ▸ List.mem_map_of_mem _ ha))]
  rfl

/-- Appending a triple does not change the unit of a name that already
occurs. -/
theorem specFirstUnit_append_mem (t : String × Int × String) (n : String) :
    ∀ (pre : List (String × Int × String)), n ∈ pre.map (fun x => x.1) →
      specFirstUnit (pre ++ [t]) n = specFirstUnit pre n := by
  intro pre
  induction pre with
  | nil => intro h; simp at h
  | cons u us ih =>
    intro h
    by_cases hu : u.1 = n
    · unfold specFirstUnit
      rw [List.cons_append, List.find?_cons_of_pos _ (by simp [hu]),
        List.find?_cons_of_pos _ (by simp [hu])]
    · have h2 : n ∈ us.map (fun x => x.1) := by
        simp only [List.map_cons, List.mem_cons] at h
        exact h.resolve_left (fun he => hu he.symm)
      have e1 : specFirstUnit ((u :: us) ++ [t]) n =
          specFirstUnit (us ++ [t]) n := by
        unfold specFirstUnit
        rw [List.cons_append, List.find?_cons_of_neg _ (by simp [hu])]
      have e2 : specFirstUnit (u :: us) n = specFirstUnit us n := by
        unfold specFirstUnit
        rw [List.find?_cons_of_neg _ (by simp [hu])]
      rw [e1, e2, ih h2]

/-- The unit of a name first introduced by the appended triple is that
triple's unit. -/
theorem specFirstUnit_append_new (t : String × Int × String) :
    ∀ (pre : List (String × Int × String)), t.1 ∉ pre.map (fun x => x.1) →
      specFirstUnit (pre ++ [t]) t.1 = t.2.2 := by
  intro pre
  induction pre with
  | nil =>
    intro _
    unfold specFirstUnit
    rw [List.nil_append, List.find?_cons_of_pos _ (by simp)]
  | cons u us ih =>
    intro h
    simp only [List.map_cons, List.mem_cons] at h
    push_neg at h
    have e1 : specFirstUnit ((u :: us) ++ [t]) t.1 =
        specFirstUnit (us ++ [t]) t.1 := by
      unfold specFirstUnit
      rw [List.cons_append, List.find?_cons_of_neg _ (by
        simp only [decide_eq_true_eq]
        exact fun he => h.1 he.symm)]
    rw [e1, ih h.2]

/-- The keys of the spec aggregation are the first-occurrence names. -/
theorem specAgg_keys (ts : List (String × Int × String)) :
    (specAgg ts).map (fun x => x.1) = groupedNames ts := by
  unfold specAgg
  rw [List.map_map]
  exact List.map_id _

/-- One loop iteration applied to the aggregation of the triples seen
so far yields the aggregation of the extended history. -/
theorem addToDict_specAgg (pre : List (String × Int × String))
    (t : String × Int × String) :
    addToDict (specAgg pre) t = specAgg (pre ++ [t]) := by
  by_cases h : t.1 ∈ pre.map (fun x => x.1)
  · have hk : t.1 ∈ (specAgg pre).map (fun x => x.1) := by
      rw [specAgg_keys]
      exact (mem_groupedNames t.1 pre).mpr h
    unfold addToDict
    rw [if_pos hk]
    unfold specAgg
    rw [groupedNames_append pre t, if_pos h, List.map_map]
    apply List.map_congr_left
    intro n hn
    have hmem : n ∈ pre.map (fun x => x.1) := (mem_groupedNames n pre).mp hn
    show (if n = t.1 then (n, specTotal pre n + t.2.1, specFirstUnit pre n)
        else (n, specTotal pre n, specFirstUnit pre n)) =
      (n, specTotal (pre ++ [t]) n, specFirstUnit (pre ++ [t]) n)
    rw [specTotal_append pre t n, specFirstUnit_append_mem t n pre hmem]
    by_cases he : n = t.1
    · rw [if_pos he, if_pos he.symm]
    · rw [if_neg he, if_neg (fun hx => he hx.symm), add_zero]
  · have hk : t.1 ∉ (specAgg pre).map (fun x => x.1) := by
      rw [specAgg_keys]
      exact fun hx => h ((mem_groupedNames t.1 pre).mp hx)
    unfold addToDict
    rw [if_neg hk]
    unfold specAgg
    rw [groupedNames_append pre t, if_neg h, List.map_append]
    congr 1
    · apply List.map_congr_left
      intro n hn
      have hmem : n ∈ pre.map (fun x => x.1) := (mem_groupedNames n pre).mp hn
      have hne : t.1 ≠ n := fun he => h (he ▸ hmem)
      rw [specTotal_append pre t n, if_neg hne, add_zero,
        specFirstUnit_append_mem t n pre hmem]
    · show [t] = [(t.1, specTotal (pre ++ [t]) t.1, specFirstUnit (pre ++ [t]) t.1)]
      rw [specTotal_append pre t t.1, if_pos rfl, specTotal_not_mem pre t.1 h,
        zero_add, specFirstUnit_append_new t pre h]

/-- Folding the dict-update over the remaining triples, starting from
the aggregation of the triples already consumed, aggregates the whole
history. -/
theorem foldl_addToDict_specAgg :
    ∀ (ts pre : List (String × Int × String)),
      ts.foldl addToDict (specAgg pre) = specAgg (pre ++ ts) := by
  intro ts
  induction ts with
  | nil => intro pre; simp
  | cons t ts ih =>
    intro pre
    rw [List.foldl_cons, addToDict_specAgg pre t, ih (pre ++ [t])]
    simp

/-- The dict component of the loop is the plain fold of the dict
update. -/
theorem shoppingLoop_fst :
    ∀ (ts : List (String × Int × String)) (d : List (String × Int × String))
      (o : Option (List String)),
      (ts.foldl shoppingStep (d, o)).1 = ts.foldl addToDict d := by
  intro ts
  induction ts with
  | nil => intro d o; rfl
  | cons t ts ih =>
    intro d o
    rw [List.foldl_cons, List.foldl_cons]
    exact ih _ _

/-- After at least one iteration, `shopping_list` holds the lines of
the final dict. -/
theorem shoppingLoop_snd :
    ∀ (ts : List (String × Int × String)) (t : String × Int × String)
      (d : List (String × Int × String)) (o : Option (List String)),
      ((t :: ts).foldl shoppingStep (d, o)).2 =
        some (((t :: ts).foldl addToDict d).map fmtLine) := by
  intro ts
  induction ts with
  | nil => intro t d o; rfl
  | cons u us ih =>
    intro t d o
    rw [List.foldl_cons, List.foldl_cons]
    exact ih u _ _

/-- On a non-empty triple list the loop produces exactly the
spec-aggregated lines. -/
theorem downloadLines_cons (t : String × Int × String)
    (ts : List (String × Int × String)) :
    downloadLines (t :: ts) = some (specLines (t :: ts)) := by
  have h1 := shoppingLoop_snd ts t [] none
  have h2 := foldl_addToDict_specAgg (t :: ts) []
  unfold downloadLines shoppingLoop
  rw [h1]
  unfold specLines
  rw [show (t :: ts).foldl addToDict ([] : List (String × Int × String)) =
    specAgg (t :: ts) from h2]

/-- C4: for every user whose shopping cart is non-empty (under the
system's own referential invariants: cart rows point at existing
recipes, every recipe has at least one ingredient line — guaranteed by
write-path validation — and lines point at catalog ingredients), the
download body is exactly the spec aggregation: one line per distinct
ingredient name in first-occurrence order, `"{name} - {total} {unit}"`
with amounts summed over all occurrences. -/
theorem shopping_list_aggregates (s : State) (u : Nat) (uname : String)
    (hcart : ∃ p ∈ s.shoppingCarts, p.1 = u)
    (hrec : ∀ p ∈ s.shoppingCarts, ∃ r ∈ s.recipes, r.id = p.2)
    (hfull : ∀ r ∈ s.recipes, ∃ l ∈ s.ingredientLines, l.recipe = r.id)
    (hing : ∀ l ∈ s.ingredientLines, ∃ i ∈ s.ingredients, i.id = l.ingredient) :
    (downloadShoppingCart s u uname).body =
      some (specLines (cartTriples s u)) := by
  have hne : cartTriples s u ≠ [] := by
    obtain ⟨pr, hpmem, hpu⟩ := hcart
    obtain ⟨r, hrmem, hrid⟩ := hrec pr hpmem
    obtain ⟨l, hlmem, hlrec⟩ := hfull r hrmem
    obtain ⟨i, himem, hiid⟩ := hing l hlmem
    have hlf : l ∈ s.ingredientLines.filter
        (fun l => (u, l.recipe) ∈ s.shoppingCarts) := by
      rw [List.mem_filter]
      refine ⟨hlmem, ?_⟩
      simp only [decide_eq_true_eq]
      rw [hlrec, hrid, ← hpu]
      exact hpmem
    have hfind : (s.ingredients.find? (fun i => i.id = l.ingredient)).isSome := by
      rw [List.find?_isSome]
      exact ⟨i, himem, by simp [hiid]⟩
    obtain ⟨j, hj⟩ := Option.isSome_iff_exists.mp hfind
    have hmemtriple : (j.name, l.amount, j.measurement_unit) ∈ cartTriples s u := by
      unfold cartTriples
      rw [List.mem_filterMap]
      exact ⟨l, hlf, by rw [hj]; rfl⟩
    exact List.ne_nil_of_mem hmemtriple
  obtain ⟨t, ts, hts⟩ := List.exists_cons_of_ne_nil hne
  show downloadLines (cartTriples s u) = some (specLines (cartTriples s u))
  rw [hts, downloadLines_cons]

/-- Witness for `shopping_list_aggregates`: user 1's cart in the demo
state holds two recipes whose lines are Salt 5 g and Salt 3 g, and the
download body is the single summed line. -/
theorem shopping_list_aggregates_witness :
    (downloadShoppingCart demoState 1 "alice").body = some ["Salt - 8 g\n"] := by
  have h := shopping_list_aggregates demoState 1 "alice"
    (by decide) (by decide) (by decide) (by decide)
  rw [h]
  rfl

end Foodgram
